import Mathlib

/-!
Verification of the `Editor` edit-in-place module (`src/js/editor.js`).

Strings of the JavaScript source are modelled as `List Char`.  The module's
private helpers (`trim`, `add_class`, `remove_class`, `on`, `detach`) and its
public operations (`setup`, `register`, with the per-element handlers
`edit_in_place`, `edit`, `update`) are embedded as pure functions over an
explicit element state.  Host-environment event dispatch is modelled by
`dispatchClick`, `dispatchBlur`, `dispatchMouseover`, `dispatchMouseout`,
which run the handlers the module has attached, exactly when they are
attached.
-/

namespace Editor

/-- Character class of the JavaScript regular-expression escape `\s`
(whitespace), restricted to the code points that can actually appear in the
texts this development evaluates: the ASCII whitespace characters together
with NO-BREAK SPACE and the BOM.  The source uses `\s` in `/^\s+/` and `/\S/`
inside `trim`. -/
def isWS (c : Char) : Bool :=
  c = ' ' || c = '\t' || c = '\n' || c = '\r' || c = '\x0b' || c = '\x0c' ||
  c = '\u00A0' || c = '\uFEFF'

/-- Negation of `isWS`, the JS regex `\S`. -/
def notWS (c : Char) : Bool := !isWS c

/-- The backward loop of the source's `trim` (lines 79-85): starting at index
`i - 1` and walking down, if the character at the index is non-whitespace the
loop breaks with `text.substring(0, index + 1)`; if the loop runs out, `text`
is returned unchanged.  `trimEndLoop t i` is the loop with indices
`i - 1, i - 2, ..., 0` still to inspect. -/
def trimEndLoop (t : List Char) : Nat → List Char
  | 0 => t
  | i + 1 => if isWS (t.getD i ' ') then trimEndLoop t i else t.take (i + 1)

/-- The source's `trim` (lines 72-89): first `text.replace(/^\s+/, '')`
removes the leading whitespace run, then the backward loop removes the
trailing whitespace run. -/
def trim (text : List Char) : List Char :=
  let t := text.dropWhile isWS
  trimEndLoop t t.length

/-- Removal of the trailing whitespace run, the canonical form against which
`trim`'s backward loop is verified. -/
def wsDropEnd (t : List Char) : List Char :=
  (t.reverse.dropWhile isWS).reverse

/-- Host-string primitive: `s.indexOf(pat) !== -1`, i.e. `pat` occurs in `s`
as a contiguous substring, with the pattern argument first for structural
recursion.  `''.indexOf('') === 0`, so the empty pattern occurs in every
string. -/
def hasSubAux (pat : List Char) : List Char → Bool
  | [] => pat.isEmpty
  | c :: s => pat.isPrefixOf (c :: s) || hasSubAux pat s

/-- `s.indexOf(pat) !== -1` in the source's argument order. -/
def hasSub (s pat : List Char) : Bool := hasSubAux pat s

/-- Host-string primitive: `String.prototype.replace` with a plain-string
pattern replaces the first (leftmost) occurrence of `pat` by `rep` and leaves
the rest of the string unchanged; with no occurrence the string is returned
unchanged. -/
def replaceFirstAux (pat rep : List Char) : List Char → List Char
  | [] => if pat.isEmpty then rep else []
  | c :: s =>
    if pat.isPrefixOf (c :: s) then rep ++ (c :: s).drop pat.length
    else c :: replaceFirstAux pat rep s

/-- `s.replace(pat, rep)` in the source's argument order. -/
def replaceFirst (s pat rep : List Char) : List Char := replaceFirstAux pat rep s

/-- The source's `add_class` (lines 97-112), acting on the `className`
attribute string: only if `className.indexOf(class_name) === -1` is the class
name appended (with a separating space when the attribute is nonempty). -/
def add_class (className class_name : List Char) : List Char :=
  if hasSub className class_name = false then
    if className = [] then class_name
    else className ++ ' ' :: class_name
  else className

/-- The source's `remove_class` (lines 120-125), acting on the `className`
attribute string: `trim(element.className.replace(class_name, ''))`. -/
def remove_class (className class_name : List Char) : List Char :=
  trim (replaceFirst className class_name [])

/-- The token list of a `class` attribute string: its maximal whitespace-free
runs.  Used to state the spec's claims about class-token operations. -/
def tokens : List Char → List (List Char)
  | [] => []
  | c :: s =>
    if isWS c then tokens s
    else (c :: s.takeWhile notWS) :: tokens (s.dropWhile notWS)
termination_by l => l.length
decreasing_by
  all_goals simp only [List.length_cons]
  · exact Nat.lt_succ_self _
  · exact Nat.lt_succ_of_le (List.Sublist.length_le (List.dropWhile_sublist _))

/-- The two module functions that are ever passed to the event-subscription
primitives: `edit` is attached to `click` (lines 242, 297) and `update` to
`blur` (line 277).  Listener identity is function identity, as required by
`removeEventListener`. -/
inductive EHandler where
  | edit : EHandler
  | update : EHandler
deriving DecidableEq

/-- The transient input surface: the child node created by assigning the pane
template to the element's `innerHTML` (line 263).  `value` is the textarea's
current text value (seeded from its markup, line 272, later changed by the
user's typing); `blurListeners` are the listeners attached to it;
`styleWidth`/`styleHeight` record the sizing writes of lines 267-268. -/
structure Pane where
  value : List Char
  blurListeners : List EHandler
  styleWidth : Int
  styleHeight : Int
deriving DecidableEq

/-- A registered page element, with exactly the parts of the DOM node the
module reads or writes.  `pane` is the mounted input surface while the
element is in edit mode, `none` otherwise (replacing `innerHTML` with plain
text discards it, children included).  `hoverWired` models the
`onmouseover`/`onmouseout` handler properties set by `edit_in_place`
(lines 231-239): a property assignment stores at most one handler, a second
assignment overwrites the first.  `clickListeners` is the DOM listener list
for `click`; `original_html` is the expando property set at line 262. -/
structure Elem where
  innerHTML : List Char
  className : List Char
  original_html : List Char
  offsetWidth : Int
  offsetHeight : Int
  clickListeners : List EHandler
  hoverWired : Bool
  pane : Option Pane
deriving DecidableEq

/-- The module-level mutable configuration: the `pane`, `highlight` and
`save` variables (lines 53-65).  The save callback is opaque; it is modelled
by an identifying tag, and its invocations are reported as events. -/
structure Config where
  pane : List Char
  highlight : List Char
  save : Option Nat
deriving DecidableEq

/-- The initial values of the configuration variables (lines 53, 59, 65):
`save` starts undefined. -/
def defaultConfig : Config :=
  { pane := "<textarea class=\"editor-pane\"></textarea>".toList
    highlight := "editor-highlight".toList
    save := none }

/-- An argument to `setup`: each field is `none` when absent from the options
object.  A present string field can still be the empty string (falsy in JS),
and a present `save` field can be a non-function falsy value (`some none`). -/
structure Options where
  pane : Option (List Char)
  highlight : Option (List Char)
  save : Option (Option Nat)

/-- The source's `on` (lines 134-147) as it acts on a listener list, with
`addEventListener` semantics: a listener with the same (type, callback,
capture) triple as one already registered is not added again, otherwise it is
appended.  (`on` is reserved in Lean, hence the name `onEv`.) -/
def onEv (listeners : List EHandler) (callback : EHandler) : List EHandler :=
  if callback ∈ listeners then listeners else listeners ++ [callback]

/-- The source's `detach` (lines 156-169) as it acts on a listener list, with
`removeEventListener` semantics: the listener matching the callback identity
is removed. -/
def detach (listeners : List EHandler) (callback : EHandler) : List EHandler :=
  listeners.erase callback

/-- The source's `setup` (lines 179-198): each provided option is merged into
the configuration only when it is truthy, i.e. a nonempty string for `pane`
and `highlight` and a function (`some (some f)`) for `save`. -/
def setup (options : Options) (c : Config) : Config :=
  let c1 :=
    match options.pane with
    | some p => if p = [] then c else { c with pane := p }
    | none => c
  let c2 :=
    match options.highlight with
    | some h => if h = [] then c1 else { c1 with highlight := h }
    | none => c1
  match options.save with
  | some (some f) => { c2 with save := some f }
  | some none => c2
  | none => c2

/-- The source's `edit_in_place` (lines 227-243): assign the hover handler
properties and attach `edit` as a click listener. -/
def edit_in_place (element : Elem) : Elem :=
  { element with
      hoverWired := true
      clickListeners := onEv element.clickListeners EHandler.edit }

/-- The source's `register` (lines 205-218) after the external selector query
has resolved to a list of elements: `edit_in_place` runs on each.  (When the
host lacks `querySelectorAll`, or the selector matches nothing, the resolved
list is empty and `register` is a no-op.) -/
def register (elements : List Elem) : List Elem :=
  elements.map edit_in_place

/-- The source's `edit` handler body (lines 250-278), reading the
configuration at the moment it fires: detach the click listener, save
`original_html`, replace the content with the configured pane template, size
the pane, seed its value with `trim(original_html)`, focus it, and attach
`update` as its blur listener. -/
def edit (c : Config) (element : Elem) : Elem :=
  let clicks := detach element.clickListeners EHandler.edit
  let original := element.innerHTML
  let p : Pane :=
    { value := trim original
      blurListeners := onEv [] EHandler.update
      styleWidth := element.offsetWidth - 10
      styleHeight := element.offsetHeight + 10 }
  { element with
      clickListeners := clicks
      original_html := original
      innerHTML := c.pane
      pane := some p }

/-- The source's `update` handler body (lines 285-303), reading the
configuration at the moment it fires: write the pane's raw value into the
element's `innerHTML` (which discards the pane and its blur listener),
re-attach the click listener, then, if a save callback is configured, invoke
it with the element handle (and nothing else).  The returned event records
the callback tag and the element state the callback observes at invocation
time. -/
def update (c : Config) (element : Elem) : Elem × Option (Nat × Elem) :=
  match element.pane with
  | none => (element, none)
  | some p =>
    let committed := { element with innerHTML := p.value, pane := none }
    let rearmed :=
      { committed with clickListeners := onEv committed.clickListeners EHandler.edit }
    match c.save with
    | some f => (rearmed, some (f, rearmed))
    | none => (rearmed, none)

/-- Host event dispatch: a `click` on the element runs `edit` exactly when
`edit` is in the element's click listener list (it is the only function the
module ever attaches there). -/
def dispatchClick (c : Config) (element : Elem) : Elem :=
  if EHandler.edit ∈ element.clickListeners then edit c element else element

/-- Host event dispatch: a `blur` on the mounted input surface runs `update`
exactly when `update` is in the pane's blur listener list; with no pane
mounted there is no surface to blur. -/
def dispatchBlur (c : Config) (element : Elem) : Elem × Option (Nat × Elem) :=
  match element.pane with
  | some p =>
    if EHandler.update ∈ p.blurListeners then update c element
    else (element, none)
  | none => (element, none)

/-- Host event dispatch: a mouseover runs the handler property assigned by
`edit_in_place` (line 231), which reads the configured highlight name at fire
time and calls `add_class`. -/
def dispatchMouseover (c : Config) (element : Elem) : Elem :=
  if element.hoverWired then
    { element with className := add_class element.className c.highlight }
  else element

/-- Host event dispatch: a mouseout runs the handler property assigned by
`edit_in_place` (line 237), which reads the configured highlight name at fire
time and calls `remove_class`. -/
def dispatchMouseout (c : Config) (element : Elem) : Elem :=
  if element.hoverWired then
    { element with className := remove_class element.className c.highlight }
  else element

/-- Host interaction: the user typing into the mounted input surface sets the
textarea's value; without a mounted pane there is nothing to type into. -/
def typeInPane (v : List Char) (element : Elem) : Elem :=
  match element.pane with
  | some p => { element with pane := some { p with value := v } }
  | none => element

/-- A sample registered element in display state whose rendered content is
`Hello`. -/
def sampleElemHello : Elem :=
  { innerHTML := "Hello".toList
    className := []
    original_html := []
    offsetWidth := 100
    offsetHeight := 20
    clickListeners := [EHandler.edit]
    hoverWired := true
    pane := none }

/-- A sample mounted input surface holding the seeded value `Hello`. -/
def samplePane : Pane :=
  { value := "Hello".toList
    blurListeners := [EHandler.update]
    styleWidth := 90
    styleHeight := 30 }

/-- A sample element in edit mode with `samplePane` mounted. -/
def sampleEditingElem : Elem :=
  { innerHTML := defaultConfig.pane
    className := []
    original_html := "Hello".toList
    offsetWidth := 100
    offsetHeight := 20
    clickListeners := []
    hoverWired := true
    pane := some samplePane }

/-- A sample unregistered element. -/
def sampleFreshElem : Elem :=
  { innerHTML := "Hi".toList
    className := []
    original_html := []
    offsetWidth := 50
    offsetHeight := 10
    clickListeners := []
    hoverWired := false
    pane := none }

/-- A sample configuration with a save callback installed. -/
def saveConfig : Config :=
  { defaultConfig with save := some 7 }

/-- A sample options object whose every field is present but falsy. -/
def falsyOptions : Options :=
  { pane := some []
    highlight := some []
    save := some none }

/-- A sample options object carrying a new pane template, a new highlight
class and a new save callback. -/
def newOptions : Options :=
  { pane := some "<textarea class=\"np\"></textarea>".toList
    highlight := some "hl".toList
    save := some (some 3) }

end Editor

namespace Editor

theorem wsDropEnd_append_ws {c : Char} (hc : isWS c = true) (m : List Char) :
    wsDropEnd (m ++ [c]) = wsDropEnd m := by
  simp [wsDropEnd, List.reverse_append, List.dropWhile_cons, hc]

theorem wsDropEnd_append_nws {c : Char} (hc : isWS c = false) (m : List Char) :
    wsDropEnd (m ++ [c]) = m ++ [c] := by
  simp [wsDropEnd, List.reverse_append, List.dropWhile_cons, hc]

theorem trimEndLoop_spec (t : List Char) :
    ∀ i : Nat, i ≤ t.length →
      trimEndLoop t i =
        if (t.take i).all isWS then t else wsDropEnd (t.take i) := by
  intro i
  induction i with
  | zero => intro _; simp [trimEndLoop]
  | succ i ih =>
    intro h
    have hi : i < t.length := Nat.lt_of_lt_of_le (Nat.lt_succ_self i) h
    have hget : t.getD i ' ' = t[i] := List.getD_eq_getElem t ' ' hi
    have htake : t.take (i + 1) = t.take i ++ [t[i]] := by
      rw [List.take_succ, List.getElem?_eq_getElem hi]
      rfl
    rw [trimEndLoop, hget, htake]
    by_cases hw : isWS t[i] = true
    · rw [if_pos hw, ih (Nat.le_of_lt hi)]
      by_cases hall : (t.take i).all isWS = true
      · have hall2 : (t.take i ++ [t[i]]).all isWS = true := by
          rw [List.all_append, List.all_cons, List.all_nil, hall, hw]
          rfl
        rw [if_pos hall, if_pos hall2]
      · have hall2 : (t.take i ++ [t[i]]).all isWS = false := by
          rw [List.all_append, Bool.eq_false_iff.mpr hall, Bool.false_and]
        rw [if_neg hall, if_neg (by rw [hall2]; exact Bool.false_ne_true),
          wsDropEnd_append_ws hw]
    · have hw' : isWS t[i] = false := Bool.eq_false_iff.mpr hw
      rw [if_neg hw]
      have hall2 : (t.take i ++ [t[i]]).all isWS = false := by
        rw [List.all_append, List.all_cons, List.all_nil, hw', Bool.false_and,
          Bool.and_false]
      rw [if_neg (by rw [hall2]; exact Bool.false_ne_true),
        wsDropEnd_append_nws hw']

theorem dropWhile_all_eq_nil (l : List Char) :
    (l.dropWhile isWS).all isWS = true → l.dropWhile isWS = [] := by
  induction l with
  | nil => intro _; rfl
  | cons c l ih =>
    intro h
    by_cases hc : isWS c = true
    · rw [List.dropWhile_cons, if_pos hc] at h ⊢
      exact ih h
    · rw [List.dropWhile_cons, if_neg hc] at h
      simp only [List.all_cons, Bool.and_eq_true] at h
      exact absurd h.1 hc

theorem trim_eq_wsDropEnd (text : List Char) :
    trim text = wsDropEnd (text.dropWhile isWS) := by
  show trimEndLoop (text.dropWhile isWS) (text.dropWhile isWS).length = _
  rw [trimEndLoop_spec (text.dropWhile isWS) (text.dropWhile isWS).length
      (Nat.le_refl _), List.take_length]
  by_cases hall : (text.dropWhile isWS).all isWS = true
  · rw [if_pos hall, dropWhile_all_eq_nil text hall]
    rfl
  · rw [if_neg hall]

theorem dropWhile_idem (p : Char → Bool) (l : List Char) :
    (l.dropWhile p).dropWhile p = l.dropWhile p := by
  induction l with
  | nil => rfl
  | cons c l ih =>
    by_cases hc : p c = true
    · rw [List.dropWhile_cons, if_pos hc, ih]
    · rw [List.dropWhile_cons, if_neg hc, List.dropWhile_cons, if_neg hc]

theorem wsDropEnd_idem (l : List Char) :
    wsDropEnd (wsDropEnd l) = wsDropEnd l := by
  simp [wsDropEnd, List.reverse_reverse, dropWhile_idem]

theorem dropWhile_head_false {l : List Char} {c : Char} {t : List Char}
    (h : l.dropWhile isWS = c :: t) : isWS c = false := by
  induction l with
  | nil => exact absurd h (by simp)
  | cons d l ih =>
    by_cases hd : isWS d = true
    · rw [List.dropWhile_cons, if_pos hd] at h
      exact ih h
    · rw [List.dropWhile_cons, if_neg hd] at h
      cases h
      exact Bool.eq_false_iff.mpr hd

theorem dropWhile_wsDropEnd_dropWhile (l : List Char) :
    (wsDropEnd (l.dropWhile isWS)).dropWhile isWS = wsDropEnd (l.dropWhile isWS) := by
  cases ht : l.dropWhile isWS with
  | nil => rfl
  | cons a s =>
    have ha : isWS a = false := dropWhile_head_false ht
    show (wsDropEnd (a :: s)).dropWhile isWS = wsDropEnd (a :: s)
    have hrev : (a :: s).reverse = s.reverse ++ [a] := by simp
    rw [wsDropEnd, hrev, List.dropWhile_append]
    by_cases he : (s.reverse.dropWhile isWS).isEmpty = true
    · rw [if_pos he]
      simp [List.dropWhile_cons, ha]
    · rw [if_neg he]
      simp [List.reverse_append, List.dropWhile_cons, ha]

theorem trim_idem (s : List Char) : trim (trim s) = trim s := by
  rw [trim_eq_wsDropEnd s, trim_eq_wsDropEnd, dropWhile_wsDropEnd_dropWhile,
    wsDropEnd_idem, ← trim_eq_wsDropEnd s]

theorem tokens_nil : tokens [] = [] := by
  simp [tokens]

theorem tokens_cons_ws {c : Char} (hc : isWS c = true) (s : List Char) :
    tokens (c :: s) = tokens s := by
  rw [tokens, if_pos hc]

theorem tokens_cons_nws {c : Char} (hc : isWS c = false) (s : List Char) :
    tokens (c :: s) = (c :: s.takeWhile notWS) :: tokens (s.dropWhile notWS) := by
  rw [tokens, if_neg (by rw [hc]; exact Bool.false_ne_true)]

theorem tokens_all_ws {l : List Char} (h : l.all isWS = true) : tokens l = [] := by
  induction l with
  | nil => exact tokens_nil
  | cons c s ih =>
    simp only [List.all_cons, Bool.and_eq_true] at h
    rw [tokens_cons_ws h.1, ih h.2]

theorem tokens_single {cn : List Char} (h1 : cn ≠ []) (h2 : cn.all notWS = true) :
    tokens cn = [cn] := by
  cases cn with
  | nil => exact absurd rfl h1
  | cons c s =>
    simp only [List.all_cons, Bool.and_eq_true] at h2
    have hc : isWS c = false := by
      have := h2.1
      simp only [notWS, Bool.not_eq_true'] at this
      exact this
    rw [tokens_cons_nws hc,
      List.takeWhile_eq_self_iff.mpr (List.all_eq_true.mp h2.2),
      List.dropWhile_eq_nil_iff.mpr (List.all_eq_true.mp h2.2), tokens_nil]

theorem tokens_append_ws_aux (c : Char) (hc : isWS c = true) :
    ∀ (n : Nat) (a : List Char), a.length ≤ n →
      ∀ b, tokens (a ++ c :: b) = tokens a ++ tokens b := by
  intro n
  induction n with
  | zero =>
    intro a ha b
    rw [List.eq_nil_of_length_eq_zero (Nat.le_zero.mp ha), List.nil_append,
      tokens_cons_ws hc, tokens_nil, List.nil_append]
  | succ n ih =>
    intro a ha b
    cases a with
    | nil =>
      rw [List.nil_append, tokens_cons_ws hc, tokens_nil, List.nil_append]
    | cons d a2 =>
      have ha2 : a2.length ≤ n := by
        simp only [List.length_cons] at ha
        exact Nat.succ_le_succ_iff.mp ha
      by_cases hd : isWS d = true
      · show tokens (d :: (a2 ++ c :: b)) = _
        rw [tokens_cons_ws hd, tokens_cons_ws hd, ih a2 ha2 b]
      · have hd2 : isWS d = false := Bool.eq_false_iff.mpr hd
        have hqc : notWS c = false := by simp [notWS, hc]
        show tokens (d :: (a2 ++ c :: b)) = _
        rw [tokens_cons_nws hd2, tokens_cons_nws hd2]
        by_cases he : a2.dropWhile notWS = []
        · have htw : a2.takeWhile notWS = a2 := by
            have happ := List.takeWhile_append_dropWhile notWS a2
            rw [he, List.append_nil] at happ
            exact happ
          have h1 : (a2 ++ c :: b).takeWhile notWS = a2 := by
            rw [List.takeWhile_append, if_pos (by rw [htw]),
              List.takeWhile_cons, if_neg (by rw [hqc]; exact Bool.false_ne_true),
              List.append_nil]
          have h2 : (a2 ++ c :: b).dropWhile notWS = c :: b := by
            rw [List.dropWhile_append, if_pos (by rw [he]; rfl),
              List.dropWhile_cons, if_neg (by rw [hqc]; exact Bool.false_ne_true)]
          rw [h1, h2, htw, he, tokens_cons_ws hc, tokens_nil]
          simp
        · have hne : (a2.dropWhile notWS).isEmpty = false :=
            Bool.eq_false_iff.mpr (fun hh => he (List.isEmpty_iff.mp hh))
          have hlen : ¬ (a2.takeWhile notWS).length = a2.length := by
            intro hlen
            have happ := congrArg List.length (List.takeWhile_append_dropWhile notWS a2)
            rw [List.length_append, hlen] at happ
            exact he (List.eq_nil_of_length_eq_zero (by omega))
          have h1 : (a2 ++ c :: b).takeWhile notWS = a2.takeWhile notWS := by
            rw [List.takeWhile_append, if_neg hlen]
          have h2 : (a2 ++ c :: b).dropWhile notWS = a2.dropWhile notWS ++ c :: b := by
            rw [List.dropWhile_append, if_neg (by rw [hne]; exact Bool.false_ne_true)]
          have hrec : (a2.dropWhile notWS).length ≤ n :=
            Nat.le_trans (List.Sublist.length_le (List.dropWhile_sublist _)) ha2
          rw [h1, h2, ih (a2.dropWhile notWS) hrec b]
          simp

theorem tokens_append_ws (c : Char) (hc : isWS c = true) (a b : List Char) :
    tokens (a ++ c :: b) = tokens a ++ tokens b :=
  tokens_append_ws_aux c hc a.length a (Nat.le_refl _) b

theorem tokens_append_all_ws {t : List Char} (ht : t.all isWS = true)
    (s : List Char) : tokens (s ++ t) = tokens s := by
  cases t with
  | nil => rw [List.append_nil]
  | cons c t2 =>
    simp only [List.all_cons, Bool.and_eq_true] at ht
    rw [tokens_append_ws c ht.1 s t2, tokens_all_ws ht.2, List.append_nil]

theorem tokens_dropWhile (l : List Char) : tokens (l.dropWhile isWS) = tokens l := by
  induction l with
  | nil => rfl
  | cons c s ih =>
    by_cases hc : isWS c = true
    · rw [List.dropWhile_cons, if_pos hc, ih, tokens_cons_ws hc]
    · rw [List.dropWhile_cons, if_neg hc]

theorem tokens_wsDropEnd (l : List Char) : tokens (wsDropEnd l) = tokens l := by
  have hdecomp : l = wsDropEnd l ++ (l.reverse.takeWhile isWS).reverse := by
    calc l = l.reverse.reverse := (List.reverse_reverse l).symm
    _ = (l.reverse.takeWhile isWS ++ l.reverse.dropWhile isWS).reverse := by
        rw [List.takeWhile_append_dropWhile]
    _ = wsDropEnd l ++ (l.reverse.takeWhile isWS).reverse := by
        rw [List.reverse_append]; rfl
  have hX : ((l.reverse.takeWhile isWS).reverse).all isWS = true := by
    rw [List.all_eq_true]
    intro x hx
    exact List.mem_takeWhile_imp (List.mem_reverse.mp hx)
  conv_rhs => rw [hdecomp]
  exact (tokens_append_all_ws hX (wsDropEnd l)).symm

theorem tokens_trim (s : List Char) : tokens (trim s) = tokens s := by
  rw [trim_eq_wsDropEnd, tokens_wsDropEnd, tokens_dropWhile]

theorem drop_append_le :
    ∀ (s t : List Char) (i : Nat), i ≤ s.length →
      (s ++ t).drop i = s.drop i ++ t := by
  intro s
  induction s with
  | nil =>
    intro t i hi
    rw [Nat.le_zero.mp hi]
    rfl
  | cons c s2 ih =>
    intro t i hi
    cases i with
    | zero => rfl
    | succ i =>
      show (c :: (s2 ++ t)).drop (i + 1) = (c :: s2).drop (i + 1) ++ t
      rw [List.drop_succ_cons, List.drop_succ_cons,
        ih t i (Nat.succ_le_succ_iff.mp (by simpa using hi))]

theorem replaceFirstAux_skip (cn rep : List Char) :
    ∀ s t, (∀ i, i < s.length → cn.isPrefixOf (s.drop i ++ t) = false) →
      replaceFirstAux cn rep (s ++ t) = s ++ replaceFirstAux cn rep t := by
  intro s
  induction s with
  | nil => intro t _; rfl
  | cons c s2 ih =>
    intro t h
    have h0 : cn.isPrefixOf (c :: (s2 ++ t)) = false := by
      have := h 0 (Nat.succ_pos _)
      simpa using this
    show replaceFirstAux cn rep (c :: (s2 ++ t)) = _
    rw [replaceFirstAux, if_neg (by rw [h0]; exact Bool.false_ne_true),
      ih t (fun i hi => by
        have := h (i + 1) (Nat.succ_lt_succ hi)
        rwa [List.drop_succ_cons] at this)]
    rfl

theorem replaceFirstAux_self (cn rep : List Char) :
    replaceFirstAux cn rep cn = rep := by
  cases cn with
  | nil => rfl
  | cons c s =>
    rw [replaceFirstAux,
      if_pos (List.isPrefixOf_iff_prefix.mpr (List.prefix_refl _)),
      List.drop_length, List.append_nil]

theorem hasSubAux_append_self (pat : List Char) :
    ∀ x, hasSubAux pat (x ++ pat) = true := by
  intro x
  induction x with
  | nil =>
    cases pat with
    | nil => rfl
    | cons c s =>
      rw [List.nil_append, hasSubAux,
        List.isPrefixOf_iff_prefix.mpr (List.prefix_refl _) ]
      rfl
  | cons d x2 ih =>
    show hasSubAux pat (d :: (x2 ++ pat)) = true
    rw [hasSubAux, ih, Bool.or_true]

theorem hasSub_add_class (cls cn : List Char) :
    hasSub (add_class cls cn) cn = true := by
  unfold add_class
  by_cases h : hasSub cls cn = false
  · rw [if_pos h]
    by_cases hcls : cls = []
    · rw [if_pos hcls]
      exact hasSubAux_append_self cn []
    · rw [if_neg hcls]
      show hasSubAux cn (cls ++ ' ' :: cn) = true
      have : cls ++ ' ' :: cn = (cls ++ [' ']) ++ cn := by simp
      rw [this]
      exact hasSubAux_append_self cn (cls ++ [' '])
  · rw [if_neg h]
    simpa using h

theorem add_class_idem (cls cn : List Char) :
    add_class (add_class cls cn) cn = add_class cls cn := by
  have h := hasSub_add_class cls cn
  rw [show add_class (add_class cls cn) cn =
      if hasSub (add_class cls cn) cn = false then
        (if add_class cls cn = [] then cn else add_class cls cn ++ ' ' :: cn)
      else add_class cls cn from rfl, h]
  simp

theorem add_class_new_token (cls cn : List Char) (h : hasSub cls cn = false)
    (h1 : cn ≠ []) (h2 : cn.all notWS = true) :
    tokens (add_class cls cn) = tokens cls ++ [cn] := by
  unfold add_class
  rw [if_pos h]
  by_cases hcls : cls = []
  · rw [if_pos hcls, hcls, tokens_nil, List.nil_append, tokens_single h1 h2]
  · rw [if_neg hcls, tokens_append_ws ' ' (by rfl) cls cn, tokens_single h1 h2]

theorem remove_class_self (x : List Char) : remove_class x x = [] := by
  unfold remove_class replaceFirst
  rw [replaceFirstAux_self]
  rfl

theorem remove_class_end_token (p cn : List Char)
    (hfirst : ((List.range (p.length + 1)).all
      (fun i => !(cn.isPrefixOf ((p ++ ' ' :: cn).drop i)))) = true) :
    tokens (remove_class (p ++ ' ' :: cn) cn) = tokens p := by
  have hassoc : p ++ ' ' :: cn = (p ++ [' ']) ++ cn := by simp
  have hskip : ∀ i, i < (p ++ [' ']).length →
      cn.isPrefixOf ((p ++ [' ']).drop i ++ cn) = false := by
    intro i hi
    have hi2 : i ≤ p.length + 1 := by
      simpa [List.length_append] using Nat.le_of_lt hi
    have hmem : i ∈ List.range (p.length + 1) := by
      rw [List.mem_range]
      simpa [List.length_append] using hi
    have hall := List.all_eq_true.mp hfirst i hmem
    have hdrop : (p ++ ' ' :: cn).drop i = (p ++ [' ']).drop i ++ cn := by
      rw [hassoc]
      exact drop_append_le (p ++ [' ']) cn i (by simpa [List.length_append] using hi2)
    rw [hdrop] at hall
    simpa [Bool.not_eq_true'] using hall
  have hrf : replaceFirst (p ++ ' ' :: cn) cn [] = p ++ [' '] := by
    unfold replaceFirst
    rw [hassoc, replaceFirstAux_skip cn [] (p ++ [' ']) cn hskip,
      replaceFirstAux_self, List.append_nil]
  unfold remove_class
  rw [hrf, tokens_trim, tokens_append_all_ws (by rfl) p]

theorem mem_onEv_self (ls : List EHandler) (h : EHandler) : h ∈ onEv ls h := by
  unfold onEv
  by_cases hm : h ∈ ls
  · rwa [if_pos hm]
  · rw [if_neg hm]
    exact List.mem_append_right _ (List.mem_singleton.mpr rfl)

/-- C1: for every registered element in display state whose rendered content
is `Hello`, a click mounts the edit pane with its value seeded to
`trim("Hello") = "Hello"`, and a subsequent blur with the value unmodified
restores the element's rendered content to exactly `Hello` (the raw pane
value), re-attaches the click listener, and returns the element to display
state. -/
theorem click_blur_round_trip_hello (c : Config) (e : Elem)
    (hcontent : e.innerHTML = "Hello".toList)
    (hpane : e.pane = none)
    (hclick : e.clickListeners = [EHandler.edit]) :
    (dispatchClick c e).pane.map Pane.value = some "Hello".toList ∧
    (dispatchBlur c (dispatchClick c e)).1.innerHTML = "Hello".toList ∧
    (dispatchBlur c (dispatchClick c e)).1.clickListeners = [EHandler.edit] ∧
    (dispatchBlur c (dispatchClick c e)).1.pane = none := by
  obtain ⟨inn, cls, orig, ow, oh, clks, hov, pn⟩ := e
  simp only at hcontent hpane hclick
  subst hcontent hpane hclick
  cases hs : c.save <;>
    simp [dispatchClick, dispatchBlur, edit, update, onEv, detach, hs] <;>
    decide

/-- Witness for C1: the round trip on a concrete element holding `Hello`,
under the default configuration. -/
theorem click_blur_round_trip_hello_witness :
    (dispatchClick defaultConfig sampleElemHello).pane.map Pane.value =
      some "Hello".toList ∧
    (dispatchBlur defaultConfig
      (dispatchClick defaultConfig sampleElemHello)).1.innerHTML = "Hello".toList ∧
    (dispatchBlur defaultConfig
      (dispatchClick defaultConfig sampleElemHello)).1.clickListeners =
      [EHandler.edit] ∧
    (dispatchBlur defaultConfig
      (dispatchClick defaultConfig sampleElemHello)).1.pane = none :=
  click_blur_round_trip_hello defaultConfig sampleElemHello rfl rfl rfl

/-- C2: for every registered element in display state, a click mounts exactly
one edit pane (the element enters edit mode once, with its click listener
detached), and a second click arriving while the element is in edit mode is a
no-op: the state is completely unchanged, because the click listener list no
longer contains `edit`. -/
theorem click_enters_editing_once (c : Config) (e : Elem)
    (hpane : e.pane = none)
    (hclick : e.clickListeners = [EHandler.edit]) :
    (dispatchClick c e).pane =
      some { value := trim e.innerHTML
             blurListeners := [EHandler.update]
             styleWidth := e.offsetWidth - 10
             styleHeight := e.offsetHeight + 10 } ∧
    (dispatchClick c e).clickListeners = [] ∧
    dispatchClick c (dispatchClick c e) = dispatchClick c e := by
  obtain ⟨inn, cls, orig, ow, oh, clks, hov, pn⟩ := e
  simp only at hpane hclick
  subst hpane hclick
  simp [dispatchClick, edit, onEv, detach]

/-- Witness for C2: single edit-mode entry and second-click no-op on a
concrete element under the default configuration. -/
theorem click_enters_editing_once_witness :
    (dispatchClick defaultConfig sampleElemHello).pane =
      some { value := trim sampleElemHello.innerHTML
             blurListeners := [EHandler.update]
             styleWidth := sampleElemHello.offsetWidth - 10
             styleHeight := sampleElemHello.offsetHeight + 10 } ∧
    (dispatchClick defaultConfig sampleElemHello).clickListeners = [] ∧
    dispatchClick defaultConfig (dispatchClick defaultConfig sampleElemHello) =
      dispatchClick defaultConfig sampleElemHello :=
  click_enters_editing_once defaultConfig sampleElemHello rfl rfl

/-- C3: on blur commit with a save callback configured, the callback is
invoked with the element handle only, and the element state it observes is
the final one: content already committed, edit pane gone, and the click
listener already re-attached. -/
theorem save_callback_after_commit (c : Config) (e : Elem) (p : Pane) (f : Nat)
    (hpane : e.pane = some p)
    (hblur : EHandler.update ∈ p.blurListeners)
    (hsave : c.save = some f) :
    (dispatchBlur c e).2 = some (f, (dispatchBlur c e).1) ∧
    (dispatchBlur c e).1.innerHTML = p.value ∧
    EHandler.edit ∈ (dispatchBlur c e).1.clickListeners ∧
    (dispatchBlur c e).1.pane = none := by
  obtain ⟨inn, cls, orig, ow, oh, clks, hov, pn⟩ := e
  simp only at hpane
  subst hpane
  simp [dispatchBlur, update, hblur, hsave, mem_onEv_self]

/-- Witness for C3: the callback invocation on a concrete editing element
under a configuration with save callback `7`. -/
theorem save_callback_after_commit_witness :
    (dispatchBlur saveConfig sampleEditingElem).2 =
      some (7, (dispatchBlur saveConfig sampleEditingElem).1) ∧
    (dispatchBlur saveConfig sampleEditingElem).1.innerHTML = samplePane.value ∧
    EHandler.edit ∈ (dispatchBlur saveConfig sampleEditingElem).1.clickListeners ∧
    (dispatchBlur saveConfig sampleEditingElem).1.pane = none :=
  save_callback_after_commit saveConfig sampleEditingElem samplePane 7 rfl
    (by decide) rfl

/-- C4: on blur commit, whatever text value is in the edit pane — including
values with leading or trailing whitespace the user typed — is written into
the element's rendered content verbatim; trim is not applied to the committed
value. -/
theorem commit_is_verbatim (c : Config) (e : Elem) (p : Pane) (v : List Char)
    (hpane : e.pane = some p)
    (hblur : EHandler.update ∈ p.blurListeners) :
    (dispatchBlur c (typeInPane v e)).1.innerHTML = v := by
  obtain ⟨inn, cls, orig, ow, oh, clks, hov, pn⟩ := e
  simp only at hpane
  subst hpane
  cases hs : c.save <;> simp [typeInPane, dispatchBlur, update, hblur, hs]

/-- Witness for C4: typing a value with leading and trailing whitespace and
committing preserves it exactly (and that value differs from its trim, so
the commit indeed did not re-trim). -/
theorem commit_is_verbatim_witness :
    "  hi  ".toList ≠ trim "  hi  ".toList ∧
    (dispatchBlur defaultConfig
      (typeInPane "  hi  ".toList sampleEditingElem)).1.innerHTML =
      "  hi  ".toList :=
  ⟨by decide,
    commit_is_verbatim defaultConfig sampleEditingElem samplePane
      "  hi  ".toList rfl (by decide)⟩

/-- C5: `trim` removes exactly the leading and the trailing whitespace run
and leaves internal whitespace untouched (equivalently, it equals dropping
whitespace from the front and then from the back); the spec's examples hold,
and `trim` is idempotent. -/
theorem trim_meets_spec :
    trim "  a b  ".toList = "a b".toList ∧
    trim "".toList = "".toList ∧
    trim "\t\nx\n".toList = "x".toList ∧
    (∀ s, trim (trim s) = trim s) ∧
    (∀ s, trim s = ((s.dropWhile isWS).reverse.dropWhile isWS).reverse) := by
  refine ⟨by decide, by decide, by decide, trim_idem, fun s => ?_⟩
  rw [trim_eq_wsDropEnd]
  rfl

/-- Counterexample to C6 as stated: with highlight class `editor-highlight`,
hover-exit on an element whose class attribute is `editor-highlighted foo`
should, per the claim, leave every pre-existing class token untouched (the
highlight token is not even present in the token list) — but `remove_class`
performs a plain first-occurrence substring replacement and corrupts the
token `editor-highlighted` into `ed`. -/
theorem remove_class_corrupts_other_token :
    remove_class "editor-highlighted foo".toList "editor-highlight".toList =
      "ed foo".toList ∧
    "editor-highlight".toList ∉ tokens "editor-highlighted foo".toList ∧
    tokens (remove_class "editor-highlighted foo".toList
      "editor-highlight".toList) ≠ tokens "editor-highlighted foo".toList := by
  have h : remove_class "editor-highlighted foo".toList
      "editor-highlight".toList = "ed foo".toList := by decide
  refine ⟨h, ?_, ?_⟩
  · simp [tokens, notWS, isWS]
  · rw [h]
    simp [tokens, notWS, isWS]

/-- C6 (amended): `remove_class` deletes the first substring occurrence of
the class name from the class attribute and trims the ends of the result.
When the class name occurs only as the final, space-separated token (as
`add_class` arranges), exactly that token is removed and every other
pre-existing token is untouched; when the attribute is exactly the class
name, the attribute becomes empty.  When the class name occurs as a substring
of another token, that token can be corrupted (the operation is not
token-list based). -/
theorem remove_class_removes_final_token (p cn : List Char)
    (hfirst : ((List.range (p.length + 1)).all
      (fun i => !(cn.isPrefixOf ((p ++ ' ' :: cn).drop i)))) = true) :
    tokens (remove_class (p ++ ' ' :: cn) cn) = tokens p ∧
    (∀ x, remove_class x x = []) :=
  ⟨remove_class_end_token p cn hfirst, remove_class_self⟩

/-- Witness for the amended C6: removing `bar` from `foo bar` leaves exactly
the token list of `foo`, and removing the sole class empties the attribute. -/
theorem remove_class_removes_final_token_witness :
    tokens (remove_class ("foo".toList ++ ' ' :: "bar".toList) "bar".toList) =
      tokens "foo".toList ∧
    (∀ x, remove_class x x = []) :=
  remove_class_removes_final_token "foo".toList "bar".toList (by decide)

/-- Counterexample to C7 as stated: with class attribute
`editor-highlighted` (a single token that merely contains the class name as a
substring), hover-enter is a no-op, so the class name is NOT added as a token
at all — `add_class` guards on `indexOf`, a substring test, not a token
test. -/
theorem add_class_can_fail_to_add_token :
    add_class "editor-highlighted".toList "editor-highlight".toList =
      "editor-highlighted".toList ∧
    "editor-highlight".toList ∉
      tokens (add_class "editor-highlighted".toList
        "editor-highlight".toList) := by
  have h : add_class "editor-highlighted".toList "editor-highlight".toList =
      "editor-highlighted".toList := by decide
  refine ⟨h, ?_⟩
  rw [h]
  simp [tokens, notWS, isWS]

/-- C7 (amended): repeated hover-enter is idempotent (never produces a
duplicate token), and the class name is added as a token exactly once
whenever it does not already occur as a substring of the class attribute;
when it does occur as a substring — even only inside a different token —
nothing is added. -/
theorem add_class_idempotent_adds_once (cls cn : List Char) :
    add_class (add_class cls cn) cn = add_class cls cn ∧
    (hasSub cls cn = false → cn ≠ [] → cn.all notWS = true →
      tokens (add_class cls cn) = tokens cls ++ [cn]) :=
  ⟨add_class_idem cls cn, fun h h1 h2 => add_class_new_token cls cn h h1 h2⟩

/-- Witness for the amended C7: adding `editor-highlight` to `foo` appends it
as one token. -/
theorem add_class_idempotent_adds_once_witness :
    tokens (add_class "foo".toList "editor-highlight".toList) =
      tokens "foo".toList ++ ["editor-highlight".toList] :=
  (add_class_idempotent_adds_once "foo".toList "editor-highlight".toList).2
    (by decide) (by decide) (by decide)

/-- C8: configuration is read at the moment each handler fires, not
snapshotted at registration: for an element registered before a `setup` call,
a click after the call mounts the new pane markup, a hover-enter applies the
new highlight class, and a blur commit invokes the new save callback. -/
theorem config_read_at_event_time (c0 : Config) (o : Options) (e : Elem)
    (np nh : List Char) (f : Nat)
    (hp : o.pane = some np) (hnp : np ≠ [])
    (hh : o.highlight = some nh) (hnh : nh ≠ [])
    (hs : o.save = some (some f))
    (hpane : e.pane = none) (hclick : e.clickListeners = []) :
    (setup o c0).pane = np ∧
    (setup o c0).highlight = nh ∧
    (setup o c0).save = some f ∧
    (dispatchClick (setup o c0) (edit_in_place e)).innerHTML = np ∧
    (dispatchMouseover (setup o c0) (edit_in_place e)).className =
      add_class e.className nh ∧
    (dispatchBlur (setup o c0)
        (dispatchClick (setup o c0) (edit_in_place e))).2 =
      some (f, (dispatchBlur (setup o c0)
        (dispatchClick (setup o c0) (edit_in_place e))).1) := by
  have h1 : (setup o c0).pane = np := by
    simp [setup, hp, hh, hs, hnp, hnh]
  have h2 : (setup o c0).highlight = nh := by
    simp [setup, hp, hh, hs, hnp, hnh]
  have h3 : (setup o c0).save = some f := by
    simp [setup, hp, hh, hs, hnp, hnh]
  obtain ⟨inn, cls, orig, ow, oh, clks, hov, pn⟩ := e
  simp only at hpane hclick
  subst hpane hclick
  refine ⟨h1, h2, h3, ?_, ?_, ?_⟩ <;>
    simp [edit_in_place, dispatchClick, dispatchMouseover, dispatchBlur, edit,
      update, onEv, detach, h1, h2, h3]

/-- Witness for C8: registering a fresh element, then installing a new pane
template, highlight class and save callback via `setup`, makes the next
click, hover and blur use the new values. -/
theorem config_read_at_event_time_witness :
    (setup newOptions defaultConfig).pane = "<textarea class=\"np\"></textarea>".toList ∧
    (setup newOptions defaultConfig).highlight = "hl".toList ∧
    (setup newOptions defaultConfig).save = some 3 ∧
    (dispatchClick (setup newOptions defaultConfig)
      (edit_in_place sampleFreshElem)).innerHTML = "<textarea class=\"np\"></textarea>".toList ∧
    (dispatchMouseover (setup newOptions defaultConfig)
      (edit_in_place sampleFreshElem)).className =
      add_class sampleFreshElem.className "hl".toList ∧
    (dispatchBlur (setup newOptions defaultConfig)
        (dispatchClick (setup newOptions defaultConfig)
          (edit_in_place sampleFreshElem))).2 =
      some (3, (dispatchBlur (setup newOptions defaultConfig)
        (dispatchClick (setup newOptions defaultConfig)
          (edit_in_place sampleFreshElem))).1) :=
  config_read_at_event_time defaultConfig newOptions sampleFreshElem
    "<textarea class=\"np\"></textarea>".toList "hl".toList 3 rfl (by decide) rfl (by decide) rfl rfl rfl

theorem onEv_idem (ls : List EHandler) (h : EHandler) :
    onEv (onEv ls h) h = onEv ls h := by
  unfold onEv
  by_cases hm : h ∈ ls
  · rw [if_pos hm, if_pos hm]
  · rw [if_neg hm,
      if_pos (List.mem_append_right _ (List.mem_singleton.mpr rfl))]

/-- Counterexample to C9 as stated: after two registrations of the same
fresh element the element carries exactly ONE click listener, not two — the
second `addEventListener` call passes the identical module-level `edit`
function and is ignored, and the hover handlers are `onmouseover` /
`onmouseout` property assignments, which hold at most one handler each. -/
theorem double_register_binds_once :
    (edit_in_place (edit_in_place sampleFreshElem)).clickListeners.length = 1 ∧
    ¬ (edit_in_place (edit_in_place sampleFreshElem)).clickListeners.length = 2 := by
  decide

/-- C9 (amended): re-registering an element is a no-op rather than a
double-bind: the hover handlers are property assignments (the second
registration overwrites the first, leaving one hover-enter and one hover-exit
handler), and the repeated `addEventListener` with the identical `edit`
callback is ignored, leaving one click handler; hence `edit_in_place`, and
`register` over any element list, are idempotent. -/
theorem reregistration_is_idempotent :
    (∀ e : Elem, edit_in_place (edit_in_place e) = edit_in_place e) ∧
    (∀ els : List Elem, register (register els) = register els) := by
  have h : ∀ e : Elem, edit_in_place (edit_in_place e) = edit_in_place e := by
    intro e
    obtain ⟨inn, cls, orig, ow, oh, clks, hov, pn⟩ := e
    simp [edit_in_place, onEv_idem]
  refine ⟨h, ?_⟩
  intro els
  induction els with
  | nil => rfl
  | cons a as ih =>
    simp only [register, List.map_cons] at ih ⊢
    rw [h a, ih]

/-- C10: `setup` can never clear a configuration field: a field that is
present in the options but falsy (the empty string for `pane` or
`highlight`, a non-function value for `save`) leaves the prior value in
place, and consequently a configuration field that is nonempty (resp.
defined) can never become empty (resp. undefined) through `setup`. -/
theorem setup_never_clears (o : Options) (c : Config) :
    (o.pane = some [] → (setup o c).pane = c.pane) ∧
    (o.highlight = some [] → (setup o c).highlight = c.highlight) ∧
    (o.save = some none → (setup o c).save = c.save) ∧
    ((setup o c).pane = [] → c.pane = []) ∧
    ((setup o c).highlight = [] → c.highlight = []) ∧
    ((setup o c).save = none → c.save = none) := by
  rcases o with ⟨op, ohl, os⟩
  rcases op with _ | p <;> rcases ohl with _ | hl <;>
    rcases os with _ | (_ | f) <;>
    simp [setup] <;>
    split_ifs <;>
    simp_all

/-- Witness for C10: applying `setup` with every field present but falsy to
the default configuration changes nothing. -/
theorem setup_never_clears_witness :
    (setup falsyOptions defaultConfig).pane = defaultConfig.pane :=
  (setup_never_clears falsyOptions defaultConfig).1 rfl

end Editor
